import Mathlib

/-!
Verification of the BiocUtils collection-types core: a shallow embedding of
`Names`, `Factor`, `NamedList` and the match machinery from
`src/biocutils/{Names,Factor,NamedList,match}.py`, together with theorems
settling the specification claims.  Python machine integers are modelled as
`Int` (no overflow is relevant at these sizes), fallible code returns
`Except PyErr`, and the mutable state of the `Names` reverse-index cache and
of shared Python list objects is made explicit.
-/

namespace BiocUtils

/-- Kinds of Python exceptions raised by the embedded code. -/
inductive PyErr where
  | valueError (msg : String)
  | typeError
  | keyError (msg : String)
  | nameError (ident : String)
  | indexError
  deriving DecidableEq, Repr

instance {ε α : Type} [DecidableEq ε] [DecidableEq α] :
    DecidableEq (Except ε α)
  | .ok a, .ok b =>
    if h : a = b then isTrue (by rw [h])
    else isFalse (fun hh => by cases hh; exact h rfl)
  | .ok _, .error _ => isFalse (fun hh => by cases hh)
  | .error _, .ok _ => isFalse (fun hh => by cases hh)
  | .error e, .error e' =>
    if h : e = e' then isTrue (by rw [h])
    else isFalse (fun hh => by cases hh; exact h rfl)

/-! ### Python dictionaries with string keys

A Python `dict` keyed by strings, modelled as an insertion-ordered
association list.  Assigning to an existing key overwrites its value in
place; assigning a fresh key appends it. -/

def dictLookup {α : Type} (d : List (String × α)) (k : String) : Option α :=
  match d with
  | [] => none
  | (k', v) :: rest => if k' = k then some v else dictLookup rest k

def dictContains {α : Type} (d : List (String × α)) (k : String) : Bool :=
  (dictLookup d k).isSome

def dictInsert {α : Type} (d : List (String × α)) (k : String) (v : α) :
    List (String × α) :=
  match d with
  | [] => [(k, v)]
  | (k', v') :: rest =>
    if k' = k then (k', v) :: rest else (k', v') :: dictInsert rest k v

/-- Position of the first occurrence of `s` in `xs`, or `-1` if absent
(the ground truth that `Names.map` is specified to compute). -/
def firstOccurrence (xs : List String) (s : String) : Int :=
  match xs.findIdx? (fun x => x = s) with
  | some i => (i : Int)
  | none => -1

/-! ### Names (Names.py)

`Names` is a list of strings with a lazily built reverse index
(`_reverse`), mapping each name to the position of its first occurrence.
`rev = none` models `self._reverse is None`. -/

structure Names where
  data : List String
  rev : Option (List (String × Nat))
  deriving DecidableEq, Repr

/-- `Names._populate_reverse_index` (Names.py lines 35-41): build the
reverse map, first occurrence winning, only if it is absent. -/
def buildReverse (data : List String) : List (String × Nat) :=
  data.enum.foldl
    (fun m p => if dictContains m p.2 then m else m ++ [(p.2, p.1)]) []

def Names.populate (s : Names) : Names :=
  match s.rev with
  | some _ => s
  | none => { s with rev := some (buildReverse s.data) }

/-- `Names.map` (Names.py lines 89-102).  Populating the reverse index
mutates the object, so the (possibly updated) object is returned
alongside the looked-up position. -/
def Names.map (s : Names) (name : String) : Int × Names :=
  let s' := s.populate
  match s'.rev with
  | some r =>
    (match dictLookup r name with
     | some i => ((i : Int), s')
     | none => (-1, s'))
  | none => (-1, s')

/-- `Names.append` (Names.py lines 104-115): if the reverse index exists
and the name is new, record it at position `len(self)` before appending. -/
def Names.append (s : Names) (name : String) : Names :=
  let rev' :=
    match s.rev with
    | some r =>
      some (if dictContains r name then r else r ++ [(name, s.data.length)])
    | none => none
  { data := s.data ++ [name], rev := rev' }

/-- `Names.extend` (Names.py lines 130-147).  When the reverse index is
populated, each genuinely new name `n` at loop position `i` is recorded
at `i + len(self)` — where `len(self)` is read *after* the previous
iterations have already appended their names — and then appended via
`Names.append`.  Without a reverse index the names are appended directly. -/
def Names.extend (s : Names) (names : List String) : Names :=
  match s.rev with
  | some _ =>
    names.enum.foldl
      (fun acc p =>
        let acc' :=
          match acc.rev with
          | some r =>
            if dictContains r p.2 then acc
            else { acc with rev := some (r ++ [(p.2, p.1 + acc.data.length)]) }
          | none => acc
        acc'.append p.2)
      s
  | none => { s with data := s.data ++ names }

/-- `Names.copy` (Names.py lines 173-178): `Names(self, coerce=False)`
copies the strings but the constructor resets `_reverse` to `None`. -/
def Names.copy (s : Names) : Names :=
  { data := s.data, rev := none }

/-! ### Factor (Factor.py)

A `Factor` is a vector of integer codes (negative = missing) indexing
into a table of unique level strings, plus an `ordered` flag. -/

structure Factor where
  codes : List Int
  levels : List String
  ordered : Bool
  deriving DecidableEq, Repr

/-- The documented `Factor` invariant: every code is negative (missing) or
a valid index into `levels`, and the levels are unique. -/
def Factor.valid (f : Factor) : Prop :=
  (∀ c ∈ f.codes, c < (f.levels.length : Int)) ∧ f.levels.Nodup

instance (f : Factor) : Decidable f.valid := by
  unfold Factor.valid
  infer_instance

/-- Python list read `xs[i]` with negative wrap-around; out of range is
an `IndexError`. -/
def pyGetInt (xs : List Int) (i : Int) : Except PyErr Int :=
  let j : Int := if i < 0 then (xs.length : Int) + i else i
  if 0 ≤ j ∧ j < (xs.length : Int) then .ok (xs.getD j.toNat 0)
  else .error .indexError

/-- The conversion of a plain (non-`numpy`) codes sequence performed by
`Factor.__init__` (Factor.py lines 46-53): the replacement array is
allocated with `len(levels)` entries — not `len(codes)` — and each code
is written at its position, negative values collapsing to `-1`.  Writing
past the end of the allocation is an `IndexError`; entries never written
keep the allocation's contents (uninitialised in `numpy`, fixed to `0`
here — only the length of the result matters to the claims). -/
def factorInitCodes (codes : List Int) (levels : List String) :
    Except PyErr (List Int) :=
  codes.enum.foldlM
    (fun acc p =>
      if p.1 < acc.length then
        Except.ok (acc.set p.1 (if p.2 < 0 then -1 else p.2))
      else Except.error .indexError)
    (List.replicate levels.length (0 : Int))

/-- `len(Factor(codes, levels))` (Factor.py lines 116-121) for codes
supplied as a plain Python sequence: the stored code array's length. -/
def factorInitLen (codes : List Int) (levels : List String) :
    Except PyErr Nat :=
  (factorInitCodes codes levels).map List.length

/-- The element at position `i` of a `Factor` (`__getitem__` scalar path,
Factor.py lines 166-171): the level string at `codes[i]`, or `none`
when the code is negative. -/
def Factor.element (f : Factor) (i : Nat) : Except PyErr (Option String) :=
  match f.codes.get? i with
  | none => .error .indexError
  | some x =>
    if 0 ≤ x then
      match f.levels.get? x.toNat with
      | some lev => .ok (some lev)
      | none => .error .indexError
    else .ok none

/-- `Factor.drop_unused_levels` (Factor.py lines 230-271).  The used-flag
and reindex tables are built as in the source; the final remap loop
(lines 261-263) reads `if not x >= 0: new_codes[i] = reindex[x]`, i.e.
it rewrites only the *negative* codes, through Python's wrap-around
indexing into `reindex`, and leaves non-negative codes untouched. -/
def Factor.dropUnusedLevels (f : Factor) : Except PyErr Factor := do
  let inUse : List Bool :=
    f.codes.foldl
      (fun acc x => if 0 ≤ x then acc.set x.toNat true else acc)
      (List.replicate f.levels.length false)
  let pair : List String × List Int :=
    inUse.enum.foldl
      (fun acc p =>
        if p.2 then
          (acc.1 ++ [f.levels.getD p.1 ""], acc.2.set p.1 (acc.1.length : Int))
        else acc)
      ([], List.replicate inUse.length (-1 : Int))
  let newCodes ← f.codes.mapM
    (fun x => if ¬ 0 ≤ x then pyGetInt pair.2 x else Except.ok x)
  return { codes := newCodes, levels := pair.1, ordered := f.ordered }

/-- `Factor.replace` (Factor.py lines 174-224), for an already-normalized
index sequence `sub`.  When the level tables agree exactly, codes are
copied across directly.  Otherwise the source computes
`mapping = match(value._levels, self._levels)` and then iterates
`enumerate(args)` (line 213) — but no name `args` is bound in `replace`,
so Python raises `NameError` before performing any iteration. -/
def Factor.replace (self : Factor) (sub : List Nat) (value : Factor) :
    Except PyErr Factor := do
  if self.levels = value.levels then
    let codes ← sub.enum.foldlM
      (fun (codes : List Int) p =>
        match value.codes.get? p.1 with
        | some v =>
          if p.2 < codes.length then Except.ok (codes.set p.2 v)
          else Except.error .indexError
        | none => Except.error .indexError)
      self.codes
    return { self with codes := codes }
  else
    throw (.nameError "args")

/-! ### NamedList (NamedList.py)

An ordered sequence of values (instantiated at `Int`; the claims never
depend on the element type) with an optional parallel `Names` object. -/

structure NamedList where
  data : List Int
  names : Option Names
  deriving DecidableEq, Repr

/-- Every key of the reverse index is one of the stored names.  This holds
for every `Names` object reachable through the API: `buildReverse` only
uses stored names as keys, `append`/`extend` only add the very names they
append (even the position-corrupting `extend` of C1 does not invent
keys), and item assignment and `insert` wipe the index. -/
def Names.cacheKeysSound (ns : Names) : Bool :=
  match ns.rev with
  | none => true
  | some r => r.all (fun kv => decide (kv.1 ∈ ns.data))

def NamedList.namesSound (x : NamedList) : Bool :=
  match x.names with
  | none => true
  | some ns => ns.cacheKeysSound

/-- The name strings of a `NamedList` (empty when names are absent). -/
def NamedList.namesData (x : NamedList) : List String :=
  match x.names with
  | none => []
  | some ns => ns.data

/-- The name column that grow-on-write starts from: the existing names,
or — when the list has no names — one empty string per element
(`Names([""] * len(output._data))`, NamedList.py line 257). -/
def NamedList.backfilledNames (x : NamedList) : List String :=
  match x.names with
  | some ns => ns.data
  | none => List.replicate x.data.length ""

/-- `NamedList.set_value` with a string index (NamedList.py lines 241-263),
as a value-level function (the `in_place` flag only controls aliasing).
A present name overwrites the first position bearing it; an absent name
appends the value and the name, backfilling empty-string names when the
list had none.  No path raises. -/
def NamedList.setValueByName (x : NamedList) (index : String) (v : Int) :
    NamedList :=
  match x.names with
  | some ns =>
    let m := ns.map index
    if m.1 < 0 then
      { data := x.data ++ [v], names := some ((m.2.copy).append index) }
    else
      { data := x.data.set m.1.toNat v, names := some m.2 }
  | none =>
    { data := x.data ++ [v],
      names :=
        some ((Names.mk (List.replicate x.data.length "") none).append index) }

/-- One entry of a subscript: a (non-negative, in-range-checked) position
or a name. -/
inductive SubElem where
  | pos (i : Nat)
  | name (s : String)
  deriving DecidableEq, Repr

/-- Modelled from the spec: `normalize_subscript` is absent from src/
(only its callers are).  Spec section 4.4: integer input is checked
against the length (`IndexError` out of range); string input is resolved
via `names.map` — first occurrence — and "fails with `KeyError` if
absent or if `names` is `None`". -/
def normalizeOne (e : SubElem) (length : Nat)
    (names : Option (List String)) : Except PyErr Nat :=
  match e with
  | .pos i => if i < length then .ok i else .error .indexError
  | .name s =>
    match names with
    | none => .error (.keyError s)
    | some ns =>
      match ns.findIdx? (fun x => x = s) with
      | some i => .ok i
      | none => .error (.keyError s)

/-- Modelled from the spec: the sequence case of `normalize_subscript` —
each entry is resolved independently, the first failure propagating; a
sequence subscript is never scalar. -/
def normalizeSubscript (sub : List SubElem) (length : Nat)
    (names : Option (List String)) : Except PyErr (List Nat) :=
  match sub with
  | [] => .ok []
  | e :: rest =>
    match normalizeOne e length names with
    | .error err => .error err
    | .ok i => (normalizeSubscript rest length names).map (fun l => i :: l)

/-- `NamedList.set_slice` (NamedList.py lines 265-304) for a sequence
subscript: normalize, then write `value[i]` at each resolved position.
Unlike `set_value`, an absent name surfaces as the normalizer's
`KeyError` and nothing is written. -/
def NamedList.setSlice (x : NamedList) (sub : List SubElem)
    (value : List Int) : Except PyErr NamedList := do
  let idx ← normalizeSubscript sub x.data.length
    (x.names.map (fun ns => ns.data))
  let d ← idx.enum.foldlM
    (fun (d : List Int) p =>
      match value.get? p.1 with
      | some v => Except.ok (d.set p.2 v)
      | none => Except.error .indexError)
    x.data
  return { x with data := d }

/-- Modelled from the spec: the default list implementation of
`assign_sequence` is absent from src/ (only its NamedList override is).
Spec section 4.5: "produces a new object of `x`'s type with `values`
written at `indices` (by the same index/value-iteration order)". -/
def assignSequenceList (xs : List Int) (indices : List Nat)
    (values : List Int) : List Int :=
  (indices.zip values).foldl (fun d p => d.set p.1 p.2) xs

/-- `_assign_sequence_NamedList` (NamedList.py lines 483-493): a
`NamedList` replacement source contributes only its `_data`; the result
is rebuilt with exactly `x._names` (the constructor's length check
passes because assignment preserves the data length). -/
def assignSequenceNamedList (x : NamedList) (indices : List Nat)
    (other : NamedList) : NamedList :=
  { data := assignSequenceList x.data indices other.data, names := x.names }

/-- `Names.extend` applied to the raw `_names` field of another
`NamedList` (NamedList.py line 412).  When that field is `None`, the
fallback branch of `Names.extend` evaluates
`super().extend(str(y) for y in None)` and iterating `None` raises
`TypeError`. -/
def Names.extendField (s : Names) (other : Option Names) :
    Except PyErr Names :=
  match other with
  | none => .error .typeError
  | some ns => .ok (s.extend ns.data)

/-- `NamedList.safe_extend` with a `NamedList` argument (NamedList.py
lines 389-416).  `_define_output` copies the data and the names (the
names copy drops the cache); iterating the argument yields its data;
then, `other` being a `NamedList`, the receiver's names — backfilled
with empty strings if absent — are extended by `other._names`. -/
def NamedList.safeExtend (x other : NamedList) : Except PyErr NamedList :=
  let base : Names :=
    match x.names with
    | some ns => ns.copy
    | none => Names.mk (List.replicate x.data.length "") none
  (base.extendField other.names).map
    (fun ns' => { data := x.data ++ other.data, names := some ns' })

/-- A concrete two-element named list used by witness theorems. -/
def wNL2 : NamedList :=
  NamedList.mk [1, 2] (some (Names.mk ["a", "b"] none))

/-- A concrete three-element named list used by witness theorems. -/
def wNL3 : NamedList :=
  NamedList.mk [1, 2, 3] (some (Names.mk ["a", "b", "c"] none))

/-- A concrete one-element named replacement list used by witness
theorems. -/
def wOther : NamedList :=
  NamedList.mk [9] (some (Names.mk ["Z"] none))

/-! ### Aliasing of backing storage (C5)

`NamedList._data` is a mutable Python list object; we model a store of
such objects and references into it.  (`_names` is shared by `copy` in
exactly the same way; the claim's mutation touches only the data list,
so only data objects live in the store.) -/

structure PyHeap where
  lists : List (List Int)
  deriving DecidableEq, Repr

structure NLRef where
  dataRef : Nat
  deriving DecidableEq, Repr

def PyHeap.list (h : PyHeap) (r : Nat) : List Int :=
  h.lists.getD r []

/-- `NamedList.copy` (NamedList.py lines 432-437):
`type(self)(self._data, names=self._names, _validate=False)` — with
validation off, the constructor stores the passed objects themselves,
so the copy references the same data list. -/
def nlCopy (x : NLRef) : NLRef :=
  NLRef.mk x.dataRef

/-- `NamedList.set_value` with an integer index and `in_place=True`
(NamedList.py lines 241-263): `output = self; output._data[index] =
value` — an update through the reference. -/
def nlSetValueInPlace (h : PyHeap) (x : NLRef) (i : Nat) (v : Int) :
    PyHeap :=
  PyHeap.mk (h.lists.set x.dataRef ((h.list x.dataRef).set i v))

/-- `NamedList.get_value` with an integer index (NamedList.py lines
171-184): a read through the reference. -/
def nlGetValue (h : PyHeap) (x : NLRef) (i : Nat) : Option Int :=
  (h.list x.dataRef).get? i

/-! ### match (match.py) -/

inductive DupMethod where
  | first
  | last
  | any
  deriving DecidableEq, Repr

/-- `first_tie = duplicate_method == "first" or duplicate_method == "any"`
(match.py lines 49 and 64). -/
def DupMethod.firstTie : DupMethod → Bool
  | .first => true
  | .any => true
  | .last => false

/-- Modelled from the spec: `is_missing_scalar` is absent from src/
(only its caller is).  Missing scalars are `None` (or masked) entries;
elements are modelled as `Option String` with `none` for `None`. -/
def isMissingScalar : Option String → Bool
  | none => true
  | some _ => false

/-- `str(y)` for an element of `x` as used in the error message of
match.py line 106. -/
def pyStr : Option String → String
  | some s => s
  | none => "None"

/-- One iteration of the generic target loop (match.py lines 66-69):
skip missing values; record the position, keeping the first occurrence
for `first`/`any` and overwriting for `last`. -/
def genericStep (dm : DupMethod) (m : List (String × Nat))
    (p : Nat × Option String) : List (String × Nat) :=
  match p.2 with
  | none => m
  | some val =>
    if !dm.firstTie || !(dictContains m val) then dictInsert m val p.1
    else m

/-- `MatchIndex.__init__` for generic (non-`Factor`) targets (match.py
lines 63-70). -/
def genericMapping (targets : List (Option String)) (dm : DupMethod) :
    List (String × Nat) :=
  targets.enum.foldl (genericStep dm) []

/-- One iteration of the `target_index` loop (match.py lines 50-54):
skip missing codes; record the position in the per-level slot, keeping
the first occurrence for `first`/`any` and overwriting for `last`. -/
def targetIndexStep (dm : DupMethod) (ti : List (Option Nat))
    (p : Nat × Int) : List (Option Nat) :=
  if p.2 < 0 then ti
  else if !dm.firstTie || (ti.getD p.2.toNat none).isNone then
    ti.set p.2.toNat (some p.1)
  else ti

/-- One iteration of the per-level map loop (match.py lines 56-60). -/
def levelStep (targetIndex : List (Option Nat)) (m : List (String × Nat))
    (p : Nat × String) : List (String × Nat) :=
  match targetIndex.getD p.1 none with
  | some c => dictInsert m p.2 c
  | none => m

/-- `MatchIndex.__init__` for `Factor` targets (match.py lines 46-61):
a per-level position table (`target_index`) filled from the codes, then
one dictionary entry per level that was actually referenced.  (Codes of
a valid factor are always in range of the table; an out-of-range `set`
is a no-op here where Python would raise `IndexError`.) -/
def factorMapping (targets : Factor) (dm : DupMethod) :
    List (String × Nat) :=
  let targetIndex : List (Option Nat) :=
    targets.codes.enum.foldl (targetIndexStep dm)
      (List.replicate targets.levels.length none)
  targets.levels.enum.foldl (levelStep targetIndex) []

/-- `x_index` (match.py lines 110-115): the match position for each of
`x`'s levels, `-1` when the level is absent from the target map. -/
def xIndexOf (m : List (String × Nat)) (xLevels : List String) : List Int :=
  xLevels.map
    (fun lev =>
      match dictLookup m lev with
      | some c => (c : Int)
      | none => -1)

/-- The generic element loop with `fail_missing = False` (match.py lines
97-102): positions for map hits, `-1` otherwise (a `None` element is
never a key of the map). -/
def matchListNoFail (m : List (String × Nat)) (x : List (Option String)) :
    List Int :=
  x.map
    (fun y =>
      match y with
      | some s =>
        (match dictLookup m s with
         | some i => (i : Int)
         | none => -1)
      | none => -1)

/-- The generic element loop with `fail_missing = True` (match.py lines
103-107): the first element absent from the map — including a `None`
element, which is never a key — raises
`ValueError("cannot find '" + str(y) + "' in 'targets'")`. -/
def matchListFail (m : List (String × Nat)) :
    List (Option String) → Except PyErr (List Int)
  | [] => .ok []
  | y :: rest =>
    match y with
    | some s =>
      (match dictLookup m s with
       | some i => (matchListFail m rest).map (fun l => (i : Int) :: l)
       | none =>
         .error (.valueError ("cannot find '" ++ s ++ "' in 'targets'")))
    | none =>
      .error (.valueError ("cannot find '" ++ pyStr none ++ "' in 'targets'"))

/-- The `Factor` element loop with `fail_missing = False` (match.py lines
126-131). -/
def matchFactorNoFailAux (xi : List Int) (codes : List Int) : List Int :=
  codes.map (fun code => if 0 ≤ code then xi.getD code.toNat (-1) else -1)

/-- The `Factor` element loop with `fail_missing = True` (match.py lines
117-125).  A negative candidate raises
`ValueError("cannot find '" + x[i] + "' in 'targets'")`; when the code
itself is negative, `x[i]` is `None` and the string concatenation in the
message raises `TypeError` instead. -/
def matchFactorFailAux (xi : List Int) (levels : List String) :
    List Int → Except PyErr (List Int)
  | [] => .ok []
  | code :: rest =>
    let candidate : Int := if 0 ≤ code then xi.getD code.toNat (-1) else -1
    if candidate < 0 then
      if 0 ≤ code then
        .error (.valueError
          ("cannot find '" ++ levels.getD code.toNat "" ++ "' in 'targets'"))
      else .error .typeError
    else (matchFactorFailAux xi levels rest).map (fun l => candidate :: l)

/-- `create_match_index` + `MatchIndex.match` on the generic path:
generic targets, generic `x`. -/
def matchGenericPath (targets : List (Option String)) (dm : DupMethod)
    (failMissing : Bool) (x : List (Option String)) :
    Except PyErr (List Int) :=
  let m := genericMapping targets dm
  if failMissing then matchListFail m x else .ok (matchListNoFail m x)

/-- `create_match_index` + `MatchIndex.match` on the optimized path:
`Factor` targets, `Factor` `x`. -/
def matchFactorPath (targets : Factor) (dm : DupMethod)
    (failMissing : Bool) (x : Factor) : Except PyErr (List Int) :=
  let m := factorMapping targets dm
  let xi := xIndexOf m x.levels
  if failMissing then matchFactorFailAux xi x.levels x.codes
  else .ok (matchFactorNoFailAux xi x.codes)

/-- The string an individual code stands for: its level at a non-negative
code, `none` (missing) at a negative code. -/
def toStr (levels : List String) (c : Int) : Option String :=
  if 0 ≤ c then levels.get? c.toNat else none

/-- The string sequence a `Factor` stands for (what `list(f)` yields via
`__getitem__`). -/
def Factor.toStrings (f : Factor) : List (Option String) :=
  f.codes.map (toStr f.levels)

/-- Agreement of the two match paths up to the kind of exception: equal
outputs on success, and failure exactly together. -/
def outcomesAgree : Except PyErr (List Int) → Except PyErr (List Int) → Prop
  | .ok a, .ok b => a = b
  | .error _, .error _ => True
  | _, _ => False

/-- Position of the first element of `ys` (counting from `n`) equal to
`some s` — the specification of a first-occurrence target map. -/
def firstHit (n : Nat) : List (Option String) → String → Option Nat
  | [], _ => none
  | y :: rest, s => if y = some s then some n else firstHit (n + 1) rest s

/-- Position of the last element of `ys` (counting from `n`) equal to
`some s`. -/
def lastHit (n : Nat) : List (Option String) → String → Option Nat
  | [], _ => none
  | y :: rest, s =>
    match lastHit (n + 1) rest s with
    | some j => some j
    | none => if y = some s then some n else none

/-- Position of the first code (counting from `n`) equal to level `ℓ`. -/
def firstCodeHit (n : Nat) : List Int → Nat → Option Nat
  | [], _ => none
  | c :: rest, ℓ =>
    if c = (ℓ : Int) then some n else firstCodeHit (n + 1) rest ℓ

/-- Position of the last code (counting from `n`) equal to level `ℓ`. -/
def lastCodeHit (n : Nat) : List Int → Nat → Option Nat
  | [], _ => none
  | c :: rest, ℓ =>
    match lastCodeHit (n + 1) rest ℓ with
    | some j => some j
    | none => if c = (ℓ : Int) then some n else none

/-- Position (counting from `n`) of the first level equal to `s`. -/
def levelIdx (n : Nat) : List String → String → Option Nat
  | [], _ => none
  | v :: rest, s => if v = s then some n else levelIdx (n + 1) rest s

/-- A concrete valid target factor used by witness theorems. -/
def wT : Factor := Factor.mk [1, 0, 1] ["A", "B"] false

/-- A concrete valid query factor used by witness theorems. -/
def wX : Factor := Factor.mk [0, -1, 1] ["B", "C"] false

/-- C1: `map(s)` must return the index of the first occurrence of `s`
after any operation sequence; but when `extend` runs with a populated
reverse index, the position recorded for the second genuinely new name
is off by one (Names.py line 142 adds the loop counter to a length that
has already grown), so `map` returns 3 for a name whose first (and only)
occurrence is at index 2. -/
theorem names_extend_corrupts_first_occurrence_index :
    (((((Names.mk ["a"] none).map "a").2.extend ["b", "c"]).map "c").1 = 3)
    ∧ ((((Names.mk ["a"] none).map "a").2.extend ["b", "c"]).data
        = ["a", "b", "c"])
    ∧ (firstOccurrence ["a", "b", "c"] "c" = 2) := by
  decide

/-- C2: `drop_unused_levels` on the valid factor with codes `[1, -1]` over
levels `["A", "B"]` must compact to levels `["B"]` with codes `[0, -1]`;
instead the source's inverted remap condition leaves the used code `1`
unremapped (now out of range of the one-entry level table, so reading
element 0 is an `IndexError`) and rewrites the missing code to `0`
(element 1 silently becomes `"B"` instead of staying missing). -/
theorem drop_unused_levels_fails_to_remap_codes :
    (Factor.valid (Factor.mk [1, -1] ["A", "B"] false))
    ∧ (Factor.dropUnusedLevels (Factor.mk [1, -1] ["A", "B"] false)
        = .ok (Factor.mk [1, 0] ["B"] false))
    ∧ ((Factor.mk [1, 0] ["B"] false).element 0 = .error .indexError
        ∧ (Factor.mk [1, -1] ["A", "B"] false).element 0 = .ok (some "B"))
    ∧ ((Factor.mk [1, 0] ["B"] false).element 1 = .ok (some "B")
        ∧ (Factor.mk [1, -1] ["A", "B"] false).element 1 = .ok none) := by
  decide

/-- C4: a `Factor` built from a plain Python sequence of codes must store
one code per input element, but `Factor.__init__` allocates the
replacement array with `len(levels)` entries: codes `[0]` over levels
`["A", "B"]` yields a factor of length 2, and three codes over one level
raise `IndexError` while filling the allocation. -/
theorem factor_init_list_codes_wrong_length :
    (factorInitLen [0] ["A", "B"] = .ok 2 ∧ 2 ≠ 1)
    ∧ (factorInitLen [0, 0, 0] ["A"] = .error .indexError)
    ∧ (factorInitLen [1, 0] ["A", "B"] = .ok 2) := by
  decide

/-- C6: replacing entries of a factor with levels `["A", "B"]` from a
factor with levels `["B", "C"]` must remap through a level match; the
source instead raises `NameError` because the remap loop iterates over
the unbound name `args` (Factor.py line 213).  The exact-equality branch
(direct code copy) does work. -/
theorem factor_replace_level_remap_name_error :
    (Factor.replace (Factor.mk [0, 1] ["A", "B"] false) [0]
        (Factor.mk [0] ["B", "C"] false) = .error (.nameError "args"))
    ∧ (Factor.replace (Factor.mk [0, 1] ["A", "B"] false) [0]
        (Factor.mk [1] ["A", "B"] false)
        = .ok (Factor.mk [1, 1] ["A", "B"] false)) := by
  decide

/-! ### Dictionary and name-lookup lemmas -/

theorem dictLookup_append {α : Type} (m m' : List (String × α)) (s : String) :
    dictLookup (m ++ m') s =
      match dictLookup m s with
      | some v => some v
      | none => dictLookup m' s := by
  induction m with
  | nil => simp [dictLookup]
  | cons kv rest ih =>
    obtain ⟨k, v⟩ := kv
    by_cases h : k = s
    · simp [dictLookup, h]
    · simp [dictLookup, h, ih]

theorem dictLookup_none_of_no_key {α : Type} (r : List (String × α))
    (s : String) (h : ∀ kv ∈ r, kv.1 ≠ s) : dictLookup r s = none := by
  induction r with
  | nil => rfl
  | cons kv rest ih =>
    obtain ⟨k, v⟩ := kv
    have hk : k ≠ s := h (k, v) (List.mem_cons_self _ _)
    simp only [dictLookup, if_neg hk]
    exact ih (fun q hq => h q (List.mem_cons_of_mem _ hq))

theorem buildReverse_step_lookup_none (s : String) (ps : List (Nat × String))
    (hps : ∀ p ∈ ps, p.2 ≠ s) :
    ∀ m0 : List (String × Nat), dictLookup m0 s = none →
      dictLookup
        (ps.foldl
          (fun m p => if dictContains m p.2 then m else m ++ [(p.2, p.1)]) m0)
        s = none := by
  induction ps with
  | nil => intro m0 h0; simpa using h0
  | cons p rest ih =>
    intro m0 h0
    simp only [List.foldl_cons]
    apply ih (fun q hq => hps q (List.mem_cons_of_mem _ hq))
    by_cases hc : dictContains m0 p.2
    · simpa [hc] using h0
    · have hp : p.2 ≠ s := hps p (List.mem_cons_self _ _)
      simp [hc, dictLookup_append, h0, dictLookup, hp]

theorem mem_of_mem_enumFrom {α : Type} :
    ∀ (l : List α) (n : Nat) (p : Nat × α), p ∈ l.enumFrom n → p.2 ∈ l := by
  intro l
  induction l with
  | nil => intro n p h; cases h
  | cons a t ih =>
    intro n p h
    rw [List.enumFrom_cons] at h
    rcases List.mem_cons.mp h with h1 | h1
    · rw [h1]
      exact List.mem_cons_self _ _
    · exact List.mem_cons_of_mem _ (ih (n + 1) p h1)

theorem buildReverse_lookup_none (data : List String) (s : String)
    (h : ¬ s ∈ data) : dictLookup (buildReverse data) s = none := by
  have hps : ∀ p ∈ data.enumFrom 0, p.2 ≠ s := by
    intro p hp hps2
    exact h (hps2 ▸ mem_of_mem_enumFrom data 0 p hp)
  exact buildReverse_step_lookup_none s (data.enumFrom 0) hps [] rfl

theorem names_map_absent (ns : Names) (s : String)
    (hsound : ns.cacheKeysSound = true) (h : ¬ s ∈ ns.data) :
    (ns.map s).1 = -1 ∧ (ns.map s).2.data = ns.data := by
  unfold Names.map Names.populate
  cases hr : ns.rev with
  | none =>
    simp only [hr]
    rw [buildReverse_lookup_none ns.data s h]
    exact ⟨rfl, rfl⟩
  | some r =>
    have hkeys : ∀ kv ∈ r, kv.1 ≠ s := by
      intro kv hkv hks
      unfold Names.cacheKeysSound at hsound
      rw [hr] at hsound
      have hd := List.all_eq_true.mp hsound kv hkv
      exact h (hks ▸ of_decide_eq_true hd)
    simp only [hr]
    rw [dictLookup_none_of_no_key r s hkeys]
    exact ⟨rfl, rfl⟩

theorem findIdx_none_of_not_mem (s : String) :
    ∀ (l : List String) (i : Nat), ¬ s ∈ l →
      List.findIdx? (fun x => x = s) l i = none := by
  intro l
  induction l with
  | nil => intro i _; rfl
  | cons a t ih =>
    intro i h
    have ha : (a = s) = False := by
      simp only [eq_iff_iff, iff_false]
      intro hh
      exact h (hh ▸ List.mem_cons_self _ _)
    rw [List.findIdx?_cons]
    simp only [ha, decide_False, Bool.false_eq_true, if_false]
    exact ih (i + 1) (fun hm => h (List.mem_cons_of_mem _ hm))

/-- C7: writing a value under a name absent from the list appends the
value and the name (backfilling empty-string names when the list had
none) and never raises, while `set_slice` addressed by the same absent
name raises `KeyError` and changes nothing. -/
theorem set_value_appends_absent_name_set_slice_raises
    (x : NamedList) (s : String) (v : Int)
    (hsound : x.namesSound = true) (habs : ¬ s ∈ x.namesData) :
    ((x.setValueByName s v).data = x.data ++ [v]
      ∧ (x.setValueByName s v).namesData = x.backfilledNames ++ [s])
    ∧ x.setSlice [SubElem.name s] [v] = .error (.keyError s) := by
  cases hx : x.names with
  | none =>
    constructor
    · constructor
      · simp [NamedList.setValueByName, hx]
      · simp [NamedList.setValueByName, NamedList.namesData,
          NamedList.backfilledNames, hx, Names.append]
    · simp [NamedList.setSlice, hx, normalizeSubscript, normalizeOne, Bind.bind,
        Except.bind]
  | some ns =>
    have hns : ¬ s ∈ ns.data := by
      simpa [NamedList.namesData, hx] using habs
    have hsnd : ns.cacheKeysSound = true := by
      simpa [NamedList.namesSound, hx] using hsound
    obtain ⟨hm1, hm2⟩ := names_map_absent ns s hsnd hns
    constructor
    · constructor
      · simp [NamedList.setValueByName, hx, hm1]
      · simp [NamedList.setValueByName, NamedList.namesData,
          NamedList.backfilledNames, hx, hm1, Names.copy, Names.append, hm2]
    · have hfind : List.findIdx? (fun y => y = s) ns.data 0 = none :=
        findIdx_none_of_not_mem s ns.data 0 hns
      simp [NamedList.setSlice, hx, normalizeSubscript, normalizeOne, hfind,
        Bind.bind, Except.bind]

theorem set_value_appends_absent_name_set_slice_raises_witness :
    ((wNL2.setValueByName "Z" 9).data = wNL2.data ++ [9]
      ∧ (wNL2.setValueByName "Z" 9).namesData = wNL2.backfilledNames ++ ["Z"])
    ∧ wNL2.setSlice [SubElem.name "Z"] [9] = .error (.keyError "Z") :=
  set_value_appends_absent_name_set_slice_raises wNL2 "Z" 9
    (by decide) (by decide)

/-! ### assign_sequence lemmas -/

theorem foldl_set_length (ps : List (Nat × Int)) :
    ∀ xs : List Int,
      (ps.foldl (fun d p => d.set p.1 p.2) xs).length = xs.length := by
  induction ps with
  | nil => intro xs; rfl
  | cons p rest ih =>
    intro xs
    simp only [List.foldl_cons]
    rw [ih, List.length_set]

theorem foldl_set_get_of_ne (j : Nat) (ps : List (Nat × Int))
    (hps : ∀ p ∈ ps, p.1 ≠ j) :
    ∀ xs : List Int,
      (ps.foldl (fun d p => d.set p.1 p.2) xs).get? j = xs.get? j := by
  induction ps with
  | nil => intro xs; rfl
  | cons p rest ih =>
    intro xs
    simp only [List.foldl_cons]
    rw [ih (fun q hq => hps q (List.mem_cons_of_mem _ hq))]
    exact List.get?_set_ne _ _ (hps p (List.mem_cons_self _ _))

/-- C8: assignment through the NamedList override keeps the receiver's
name sequence exactly, keeps the data length, and leaves every position
outside `indices` untouched, whatever names the replacement `NamedList`
carries. -/
theorem assign_sequence_named_list_preserves_names
    (x : NamedList) (indices : List Nat) (other : NamedList) (j : Nat)
    (hj : ¬ j ∈ indices) :
    (assignSequenceNamedList x indices other).names = x.names
    ∧ (assignSequenceNamedList x indices other).data.length = x.data.length
    ∧ (assignSequenceNamedList x indices other).data.get? j
      = x.data.get? j := by
  refine ⟨rfl, ?_, ?_⟩
  · exact foldl_set_length _ _
  · apply foldl_set_get_of_ne
    intro p hp
    have := (List.of_mem_zip hp).1
    intro hh
    exact hj (hh ▸ this)

theorem assign_sequence_named_list_preserves_names_witness :
    (assignSequenceNamedList wNL3 [1] wOther).names = wNL3.names
    ∧ (assignSequenceNamedList wNL3 [1] wOther).data.length
      = wNL3.data.length
    ∧ (assignSequenceNamedList wNL3 [1] wOther).data.get? 0
      = wNL3.data.get? 0 :=
  assign_sequence_named_list_preserves_names wNL3 [1] wOther 0 (by decide)

/-- C3: a missing (`None`) entry of `x` must map to `-1` irrespective of
`fail_missing`.  With `fail_missing = False` it does, on both paths; but
with `fail_missing = True` the generic loop raises
`ValueError("cannot find 'None' in 'targets'")` for it (match.py lines
104-107 test map membership before any missing-value check), and the
`Factor` loop raises for the negative code as well — a `TypeError`, since
the error message concatenates `x[i] = None` into a string. -/
theorem match_missing_entry_raises_under_fail_missing :
    (matchGenericPath [some "A"] .first false [none] = .ok [-1])
    ∧ (matchGenericPath [some "A"] .first true [none]
        = .error (.valueError "cannot find 'None' in 'targets'"))
    ∧ (matchFactorPath (Factor.mk [0] ["A"] false) .first false
        (Factor.mk [-1] [] false) = .ok [-1])
    ∧ (matchFactorPath (Factor.mk [0] ["A"] false) .first true
        (Factor.mk [-1] [] false) = .error .typeError) := by
  decide

/-- C5: after `y = x.copy()`, `y.set_value(0, 99, in_place=True)` must
leave `x` unchanged; but `copy` passes `self._data` through with
`_validate=False`, so the copy aliases the source's data list and the
write is visible through `x` (`x.get_value(0)` turns from `1` into
`99`) — contradicting the repo's own `test_NamedList_basics`. -/
theorem named_list_copy_aliases_data :
    (nlGetValue
        (nlSetValueInPlace (PyHeap.mk [[1, 2, 3, 4]]) (nlCopy (NLRef.mk 0))
          0 99)
        (NLRef.mk 0) 0 = some 99)
    ∧ (nlGetValue (PyHeap.mk [[1, 2, 3, 4]]) (NLRef.mk 0) 0 = some 1) := by
  decide

/-- C9 counterexample: the optimized `Factor`-vs-`Factor` path and the
generic string path do not have identical error behavior.  For `x` with
one missing entry, targets `["A"]` and `fail_missing = True`, the generic
path raises `ValueError` while the optimized path raises `TypeError`
(the message concatenation hits `None`). -/
theorem factor_match_generic_paths_differ_on_missing :
    (matchFactorPath (Factor.mk [0] ["A"] false) .first true
        (Factor.mk [-1] ["A"] false) = .error .typeError)
    ∧ (matchGenericPath (Factor.toStrings (Factor.mk [0] ["A"] false))
        .first true (Factor.toStrings (Factor.mk [-1] ["A"] false))
        = .error (.valueError "cannot find 'None' in 'targets'"))
    ∧ (PyErr.typeError ≠ PyErr.valueError "cannot find 'None' in 'targets'")
    := by
  decide

/-- C10: `safe_extend` with a `NamedList` argument that has no names must
append empty-string names; instead the receiver's names are extended by
the raw `None` field (NamedList.py line 412 lacks the
`other._names is not None` guard) and iterating `None` raises
`TypeError`.  The other two name configurations behave as claimed:
names carried over positionally, and a nameless receiver backfilled
with empty strings. -/
theorem safe_extend_nameless_namedlist_raises :
    (NamedList.safeExtend (NamedList.mk [1] (some (Names.mk ["a"] none)))
        (NamedList.mk [2] none) = .error .typeError)
    ∧ (NamedList.safeExtend (NamedList.mk [1] (some (Names.mk ["a"] none)))
        (NamedList.mk [2] (some (Names.mk ["b"] none)))
        = .ok (NamedList.mk [1, 2] (some (Names.mk ["a", "b"] none))))
    ∧ (NamedList.safeExtend (NamedList.mk [1] none)
        (NamedList.mk [2] (some (Names.mk ["b"] none)))
        = .ok (NamedList.mk [1, 2] (some (Names.mk ["", "b"] none)))) := by
  decide

/-! ### Lemmas for the match-path equivalence (C9) -/

theorem optionMatchId (o : Option Nat) :
    (match o with
     | some c => some c
     | none => (none : Option Nat)) = o := by
  cases o <;> rfl

theorem dictLookup_dictInsert {α : Type} (m : List (String × α))
    (k s : String) (v : α) :
    dictLookup (dictInsert m k v) s =
      if k = s then some v else dictLookup m s := by
  induction m with
  | nil => by_cases h : k = s <;> simp [dictInsert, dictLookup, h]
  | cons kv rest ih =>
    obtain ⟨k', v'⟩ := kv
    by_cases hk : k' = k
    · subst hk
      by_cases hs : k' = s <;> simp [dictInsert, dictLookup, hs]
    · by_cases hs : k' = s
      · subst hs
        have hks : ¬ k = k' := fun hh => hk hh.symm
        simp [dictInsert, hk, dictLookup, hks]
      · simp [dictInsert, hk, dictLookup, hs, ih]

theorem dictContains_lookup_none {α : Type} (m : List (String × α))
    (s : String) (h : dictContains m s = false) : dictLookup m s = none := by
  unfold dictContains at h
  cases hdl : dictLookup m s with
  | none => rfl
  | some v => rw [hdl] at h; cases h

theorem getD_set_self {α : Type} :
    ∀ (l : List (Option α)) (i : Nat) (a : Option α), i < l.length →
      (l.set i a).getD i none = a := by
  intro l
  induction l with
  | nil => intro i a h; cases h
  | cons b t ih =>
    intro i a h
    cases i with
    | zero => rfl
    | succ n => exact ih n a (Nat.lt_of_succ_lt_succ h)

theorem getD_set_other {α : Type} :
    ∀ (l : List (Option α)) (i j : Nat) (a : Option α), i ≠ j →
      (l.set i a).getD j none = l.getD j none := by
  intro l
  induction l with
  | nil => intro i j a _; rfl
  | cons b t ih =>
    intro i j a h
    cases i with
    | zero =>
      cases j with
      | zero => exact absurd rfl h
      | succ mm => rfl
    | succ n =>
      cases j with
      | zero => rfl
      | succ mm => exact ih n mm a (fun hh => h (by rw [hh]))

theorem replicate_getD_none {α : Type} :
    ∀ (n i : Nat), (List.replicate n (none : Option α)).getD i none = none := by
  intro n
  induction n with
  | zero => intro i; cases i <;> rfl
  | succ nn ih =>
    intro i
    cases i with
    | zero => rfl
    | succ ii => exact ih ii

theorem targetIndex_fold_length (dm : DupMethod) :
    ∀ (ps : List (Nat × Int)) (ti : List (Option Nat)),
      (ps.foldl (targetIndexStep dm) ti).length = ti.length := by
  intro ps
  induction ps with
  | nil => intro ti; rfl
  | cons p rest ih =>
    intro ti
    rw [List.foldl_cons, ih]
    unfold targetIndexStep
    by_cases h1 : p.2 < 0
    · simp [h1]
    · by_cases h2 : (!dm.firstTie || (ti.getD p.2.toNat none).isNone) = true
      · rw [if_neg h1, if_pos h2, List.length_set]
      · rw [if_neg h1, if_neg h2]

theorem levelIdx_none_iff (s : String) :
    ∀ (ls : List String) (n : Nat), levelIdx n ls s = none ↔ ¬ s ∈ ls := by
  intro ls
  induction ls with
  | nil => intro n; simp [levelIdx]
  | cons v rest ih =>
    intro n
    by_cases hv : v = s
    · subst hv
      simp [levelIdx]
    · have hsv : ¬ s = v := fun hh => hv hh.symm
      simp [levelIdx, hv, ih (n + 1), hsv]

theorem levelIdx_some_spec (s : String) :
    ∀ (ls : List String) (n j : Nat), levelIdx n ls s = some j →
      ∃ k, j = n + k ∧ k < ls.length ∧ ls.get? k = some s := by
  intro ls
  induction ls with
  | nil => intro n j h; cases h
  | cons v rest ih =>
    intro n j h
    by_cases hv : v = s
    · refine ⟨0, ?_, Nat.succ_pos _, by rw [hv]; rfl⟩
      unfold levelIdx at h
      rw [if_pos hv] at h
      cases h
      rfl
    · unfold levelIdx at h
      rw [if_neg hv] at h
      obtain ⟨k, hk1, hk2, hk3⟩ := ih (n + 1) j h
      exact ⟨k + 1, by omega, Nat.succ_lt_succ hk2, hk3⟩

theorem match_self_none {α : Type} (o : Option α) :
    o = match o with
        | some v => some v
        | none => (none : Option α) := by
  cases o <;> rfl

theorem firstHit_cons (n : Nat) (y : Option String)
    (rest : List (Option String)) (s : String) :
    firstHit n (y :: rest) s
      = if y = some s then some n else firstHit (n + 1) rest s := rfl

theorem lastHit_cons (n : Nat) (y : Option String)
    (rest : List (Option String)) (s : String) :
    lastHit n (y :: rest) s =
      match lastHit (n + 1) rest s with
      | some j => some j
      | none => if y = some s then some n else none := rfl

theorem firstCodeHit_cons (n : Nat) (c : Int) (rest : List Int) (ℓ : Nat) :
    firstCodeHit n (c :: rest) ℓ
      = if c = (ℓ : Int) then some n else firstCodeHit (n + 1) rest ℓ := rfl

theorem lastCodeHit_cons (n : Nat) (c : Int) (rest : List Int) (ℓ : Nat) :
    lastCodeHit n (c :: rest) ℓ =
      match lastCodeHit (n + 1) rest ℓ with
      | some j => some j
      | none => if c = (ℓ : Int) then some n else none := rfl

theorem levelIdx_cons (n : Nat) (v : String) (rest : List String)
    (s : String) :
    levelIdx n (v :: rest) s
      = if v = s then some n else levelIdx (n + 1) rest s := rfl

theorem genericStep_none (dm : DupMethod) (m0 : List (String × Nat))
    (n : Nat) : genericStep dm m0 (n, none) = m0 := rfl

theorem genericStep_skip (dm : DupMethod) (hdm : dm.firstTie = true)
    (m0 : List (String × Nat)) (n : Nat) (val : String)
    (hc : dictContains m0 val = true) :
    genericStep dm m0 (n, some val) = m0 := by
  show (if (!dm.firstTie || !(dictContains m0 val)) = true then
      dictInsert m0 val n
    else m0) = m0
  rw [hdm, hc]
  rfl

theorem genericStep_insert (dm : DupMethod) (m0 : List (String × Nat))
    (n : Nat) (val : String)
    (hcond : (!dm.firstTie || !(dictContains m0 val)) = true) :
    genericStep dm m0 (n, some val) = dictInsert m0 val n := by
  show (if (!dm.firstTie || !(dictContains m0 val)) = true then
      dictInsert m0 val n
    else m0) = dictInsert m0 val n
  rw [if_pos hcond]

theorem targetIndexStep_neg (dm : DupMethod) (ti : List (Option Nat))
    (n : Nat) (c : Int) (hc : c < 0) : targetIndexStep dm ti (n, c) = ti := by
  unfold targetIndexStep
  rw [if_pos hc]

theorem targetIndexStep_set (dm : DupMethod) (ti : List (Option Nat))
    (n : Nat) (c : Int) (hc : ¬ c < 0)
    (hcond : (!dm.firstTie || (ti.getD c.toNat none).isNone) = true) :
    targetIndexStep dm ti (n, c) = ti.set c.toNat (some n) := by
  unfold targetIndexStep
  rw [if_neg hc, if_pos hcond]

theorem targetIndexStep_keep (dm : DupMethod) (ti : List (Option Nat))
    (n : Nat) (c : Int) (hc : ¬ c < 0)
    (hcond : ¬ (!dm.firstTie || (ti.getD c.toNat none).isNone) = true) :
    targetIndexStep dm ti (n, c) = ti := by
  unfold targetIndexStep
  rw [if_neg hc, if_neg hcond]

theorem targetIndexStep_length (dm : DupMethod) (ti : List (Option Nat))
    (p : Nat × Int) : (targetIndexStep dm ti p).length = ti.length := by
  unfold targetIndexStep
  by_cases h1 : p.2 < 0
  · rw [if_pos h1]
  · by_cases h2 : (!dm.firstTie || (ti.getD p.2.toNat none).isNone) = true
    · rw [if_neg h1, if_pos h2, List.length_set]
    · rw [if_neg h1, if_neg h2]

theorem levelStep_hit (ti : List (Option Nat)) (m0 : List (String × Nat))
    (n : Nat) (v : String) (c : Nat) (h : ti.getD n none = some c) :
    levelStep ti m0 (n, v) = dictInsert m0 v c := by
  unfold levelStep
  rw [h]

theorem levelStep_miss (ti : List (Option Nat)) (m0 : List (String × Nat))
    (n : Nat) (v : String) (h : ti.getD n none = none) :
    levelStep ti m0 (n, v) = m0 := by
  unfold levelStep
  rw [h]

theorem genericMapping_fold_first (dm : DupMethod) (hdm : dm.firstTie = true)
    (s : String) :
    ∀ (ys : List (Option String)) (n : Nat) (m0 : List (String × Nat)),
      dictLookup ((ys.enumFrom n).foldl (genericStep dm) m0) s =
        match dictLookup m0 s with
        | some v => some v
        | none => firstHit n ys s := by
  intro ys
  induction ys with
  | nil =>
    intro n m0
    rw [show List.enumFrom n ([] : List (Option String)) = [] from rfl,
      List.foldl_nil]
    cases dictLookup m0 s <;> rfl
  | cons y rest ih =>
    intro n m0
    rw [List.enumFrom_cons, List.foldl_cons, firstHit_cons]
    cases y with
    | none =>
      rw [genericStep_none dm m0 n, ih (n + 1) m0,
        if_neg (fun h => Option.noConfusion h)]
    | some val =>
      by_cases hc : dictContains m0 val = true
      · rw [genericStep_skip dm hdm m0 n val hc, ih (n + 1) m0]
        by_cases hval : val = s
        · obtain ⟨v, hv2⟩ := Option.isSome_iff_exists.mp
            (show (dictLookup m0 s).isSome = true by rw [← hval]; exact hc)
          rw [hv2]
        · rw [if_neg (fun h => hval (Option.some.inj h))]
      · have hcF : dictContains m0 val = false := by
          revert hc
          cases dictContains m0 val <;> simp
        have hcond : (!dm.firstTie || !(dictContains m0 val)) = true := by
          rw [hdm, hcF]
          rfl
        rw [genericStep_insert dm m0 n val hcond,
          ih (n + 1) (dictInsert m0 val n), dictLookup_dictInsert]
        by_cases hval : val = s
        · have h0 : dictLookup m0 s = none := by
            rw [← hval]
            exact dictContains_lookup_none m0 val hcF
          rw [if_pos hval, h0, if_pos (show some val = some s by rw [hval])]
        · rw [if_neg hval, if_neg (fun h => hval (Option.some.inj h))]

theorem genericMapping_fold_last (dm : DupMethod) (hdm : dm.firstTie = false)
    (s : String) :
    ∀ (ys : List (Option String)) (n : Nat) (m0 : List (String × Nat)),
      dictLookup ((ys.enumFrom n).foldl (genericStep dm) m0) s =
        match lastHit n ys s with
        | some j => some j
        | none => dictLookup m0 s := by
  intro ys
  induction ys with
  | nil => intro n m0; rfl
  | cons y rest ih =>
    intro n m0
    rw [List.enumFrom_cons, List.foldl_cons, lastHit_cons]
    cases y with
    | none =>
      rw [genericStep_none dm m0 n, ih (n + 1) m0,
        if_neg (fun h => Option.noConfusion h)]
      cases lastHit (n + 1) rest s <;> rfl
    | some val =>
      have hcond : (!dm.firstTie || !(dictContains m0 val)) = true := by
        rw [hdm]
        rfl
      rw [genericStep_insert dm m0 n val hcond,
        ih (n + 1) (dictInsert m0 val n), dictLookup_dictInsert]
      by_cases hval : val = s
      · rw [if_pos hval, if_pos (show some val = some s by rw [hval])]
        cases lastHit (n + 1) rest s <;> rfl
      · rw [if_neg hval, if_neg (fun h => hval (Option.some.inj h))]
        cases lastHit (n + 1) rest s <;> rfl

theorem targetIndex_fold_first (dm : DupMethod) (hdm : dm.firstTie = true)
    (ℓ : Nat) :
    ∀ (codes : List Int) (n : Nat) (ti : List (Option Nat)), ℓ < ti.length →
      ((codes.enumFrom n).foldl (targetIndexStep dm) ti).getD ℓ none =
        match ti.getD ℓ none with
        | some v => some v
        | none => firstCodeHit n codes ℓ := by
  intro codes
  induction codes with
  | nil =>
    intro n ti _
    rw [show List.enumFrom n ([] : List Int) = [] from rfl, List.foldl_nil]
    cases ti.getD ℓ none <;> rfl
  | cons c rest ih =>
    intro n ti hlen
    rw [List.enumFrom_cons, List.foldl_cons, firstCodeHit_cons]
    by_cases hc0 : c < 0
    · rw [targetIndexStep_neg dm ti n c hc0, ih (n + 1) ti hlen,
        if_neg (show ¬ c = (ℓ : Int) by omega)]
    · by_cases hcl : c = (ℓ : Int)
      · have hto : c.toNat = ℓ := by omega
        cases hti : ti.getD ℓ none with
        | some v =>
          have hcond :
              ¬ (!dm.firstTie || (ti.getD c.toNat none).isNone) = true := by
            rw [hdm, hto, hti]
            simp
          rw [targetIndexStep_keep dm ti n c hc0 hcond, ih (n + 1) ti hlen,
            hti]
        | none =>
          have hcond :
              (!dm.firstTie || (ti.getD c.toNat none).isNone) = true := by
            rw [hto, hti]
            simp
          rw [targetIndexStep_set dm ti n c hc0 hcond, hto,
            ih (n + 1) (ti.set ℓ (some n))
              (by rw [List.length_set]; exact hlen),
            getD_set_self ti ℓ (some n) hlen, if_pos hcl]
      · have hto : ¬ c.toNat = ℓ := by omega
        have hgd : (targetIndexStep dm ti (n, c)).getD ℓ none
            = ti.getD ℓ none := by
          unfold targetIndexStep
          rw [if_neg hc0]
          by_cases h2 : (!dm.firstTie || (ti.getD c.toNat none).isNone) = true
          · rw [if_pos h2]
            exact getD_set_other ti c.toNat ℓ (some n) hto
          · rw [if_neg h2]
        have hlen2 : ℓ < (targetIndexStep dm ti (n, c)).length := by
          rw [targetIndexStep_length]
          exact hlen
        rw [ih (n + 1) (targetIndexStep dm ti (n, c)) hlen2, hgd,
          if_neg hcl]

theorem targetIndex_fold_last (dm : DupMethod) (hdm : dm.firstTie = false)
    (ℓ : Nat) :
    ∀ (codes : List Int) (n : Nat) (ti : List (Option Nat)), ℓ < ti.length →
      ((codes.enumFrom n).foldl (targetIndexStep dm) ti).getD ℓ none =
        match lastCodeHit n codes ℓ with
        | some j => some j
        | none => ti.getD ℓ none := by
  intro codes
  induction codes with
  | nil => intro n ti _; rfl
  | cons c rest ih =>
    intro n ti hlen
    rw [List.enumFrom_cons, List.foldl_cons, lastCodeHit_cons]
    by_cases hc0 : c < 0
    · rw [targetIndexStep_neg dm ti n c hc0, ih (n + 1) ti hlen,
        if_neg (show ¬ c = (ℓ : Int) by omega)]
      cases lastCodeHit (n + 1) rest ℓ <;> rfl
    · have hcond : (!dm.firstTie || (ti.getD c.toNat none).isNone) = true := by
        rw [hdm]
        rfl
      rw [targetIndexStep_set dm ti n c hc0 hcond]
      by_cases hcl : c = (ℓ : Int)
      · have hto : c.toNat = ℓ := by omega
        rw [hto,
          ih (n + 1) (ti.set ℓ (some n)) (by rw [List.length_set]; exact hlen),
          getD_set_self ti ℓ (some n) hlen, if_pos hcl]
        cases lastCodeHit (n + 1) rest ℓ <;> rfl
      · have hto : ¬ c.toNat = ℓ := by omega
        rw [ih (n + 1) (ti.set c.toNat (some n))
            (by rw [List.length_set]; exact hlen),
          getD_set_other ti c.toNat ℓ (some n) hto, if_neg hcl]
        cases lastCodeHit (n + 1) rest ℓ <;> rfl

theorem levels_fold_char (ti : List (Option Nat)) (s : String) :
    ∀ (ls : List String) (n : Nat) (m0 : List (String × Nat)), ls.Nodup →
      dictLookup ((ls.enumFrom n).foldl (levelStep ti) m0) s =
        match levelIdx n ls s with
        | some j =>
          (match ti.getD j none with
           | some c => some c
           | none => dictLookup m0 s)
        | none => dictLookup m0 s := by
  intro ls
  induction ls with
  | nil => intro n m0 _; rfl
  | cons v rest ih =>
    intro n m0 hnd
    obtain ⟨hv_rest, hnd_rest⟩ := List.nodup_cons.mp hnd
    rw [List.enumFrom_cons, List.foldl_cons, levelIdx_cons]
    by_cases hv : v = s
    · have hli2 : levelIdx (n + 1) rest s = none := by
        apply (levelIdx_none_iff s rest (n + 1)).mpr
        rw [← hv]
        exact hv_rest
      rw [ih (n + 1) (levelStep ti m0 (n, v)) hnd_rest, hli2, if_pos hv]
      cases hti : ti.getD n none with
      | some c =>
        rw [levelStep_hit ti m0 n v c hti, dictLookup_dictInsert, if_pos hv]
        show some c =
          match ti.getD n none with
          | some c1 => some c1
          | none => dictLookup m0 s
        rw [hti]
      | none =>
        rw [levelStep_miss ti m0 n v hti]
        show dictLookup m0 s =
          match ti.getD n none with
          | some c1 => some c1
          | none => dictLookup m0 s
        rw [hti]
    · rw [ih (n + 1) (levelStep ti m0 (n, v)) hnd_rest, if_neg hv]
      have hm1 : dictLookup (levelStep ti m0 (n, v)) s = dictLookup m0 s := by
        cases hti : ti.getD n none with
        | some c =>
          rw [levelStep_hit ti m0 n v c hti, dictLookup_dictInsert,
            if_neg hv]
        | none => rw [levelStep_miss ti m0 n v hti]
      rw [hm1]

theorem toStr_eq_some_iff (levels : List String) (s : String) (ℓ : Nat)
    (hnd : levels.Nodup) (hget : levels.get? ℓ = some s) (c : Int)
    (hc : c < (levels.length : Int)) :
    toStr levels c = some s ↔ c = (ℓ : Int) := by
  constructor
  · intro h
    unfold toStr at h
    by_cases h0 : 0 ≤ c
    · rw [if_pos h0] at h
      have hlt : c.toNat < levels.length := by omega
      have := List.get?_inj hlt hnd (h.trans hget.symm)
      omega
    · rw [if_neg h0] at h
      cases h
  · intro h
    have h0 : 0 ≤ c := by omega
    unfold toStr
    rw [if_pos h0, show c.toNat = ℓ by omega, hget]

theorem hit_bridge_first (levels : List String) (s : String) (ℓ : Nat)
    (hnd : levels.Nodup) (hget : levels.get? ℓ = some s) :
    ∀ (codes : List Int), (∀ c ∈ codes, c < (levels.length : Int)) →
      ∀ n, firstHit n (codes.map (toStr levels)) s
        = firstCodeHit n codes ℓ := by
  intro codes
  induction codes with
  | nil => intro _ n; rfl
  | cons c rest ih =>
    intro hv n
    rw [List.map_cons, firstHit_cons, firstCodeHit_cons]
    by_cases hcl : c = (ℓ : Int)
    · rw [if_pos ((toStr_eq_some_iff levels s ℓ hnd hget c
          (hv c (List.mem_cons_self _ _))).mpr hcl), if_pos hcl]
    · rw [if_neg (fun hh => hcl ((toStr_eq_some_iff levels s ℓ hnd hget c
          (hv c (List.mem_cons_self _ _))).mp hh)), if_neg hcl,
        ih (fun d hd => hv d (List.mem_cons_of_mem _ hd)) (n + 1)]

theorem hit_bridge_last (levels : List String) (s : String) (ℓ : Nat)
    (hnd : levels.Nodup) (hget : levels.get? ℓ = some s) :
    ∀ (codes : List Int), (∀ c ∈ codes, c < (levels.length : Int)) →
      ∀ n, lastHit n (codes.map (toStr levels)) s
        = lastCodeHit n codes ℓ := by
  intro codes
  induction codes with
  | nil => intro _ n; rfl
  | cons c rest ih =>
    intro hv n
    rw [List.map_cons, lastHit_cons, lastCodeHit_cons,
      ih (fun d hd => hv d (List.mem_cons_of_mem _ hd)) (n + 1)]
    by_cases hcl : c = (ℓ : Int)
    · rw [if_pos ((toStr_eq_some_iff levels s ℓ hnd hget c
          (hv c (List.mem_cons_self _ _))).mpr hcl), if_pos hcl]
    · rw [if_neg (fun hh => hcl ((toStr_eq_some_iff levels s ℓ hnd hget c
          (hv c (List.mem_cons_self _ _))).mp hh)), if_neg hcl]

theorem firstHit_none_of_not_mem (levels : List String) (s : String)
    (hs : ¬ s ∈ levels) :
    ∀ (codes : List Int) (n : Nat),
      firstHit n (codes.map (toStr levels)) s = none := by
  intro codes
  induction codes with
  | nil => intro n; rfl
  | cons c rest ih =>
    intro n
    have hne : ¬ toStr levels c = some s := by
      intro hh
      unfold toStr at hh
      by_cases h0 : 0 ≤ c
      · rw [if_pos h0] at hh
        exact hs (List.get?_mem hh)
      · rw [if_neg h0] at hh
        cases hh
    rw [List.map_cons, firstHit_cons, if_neg hne, ih (n + 1)]

theorem lastHit_none_of_not_mem (levels : List String) (s : String)
    (hs : ¬ s ∈ levels) :
    ∀ (codes : List Int) (n : Nat),
      lastHit n (codes.map (toStr levels)) s = none := by
  intro codes
  induction codes with
  | nil => intro n; rfl
  | cons c rest ih =>
    intro n
    have hne : ¬ toStr levels c = some s := by
      intro hh
      unfold toStr at hh
      by_cases h0 : 0 ≤ c
      · rw [if_pos h0] at hh
        exact hs (List.get?_mem hh)
      · rw [if_neg h0] at hh
        cases hh
    rw [List.map_cons, lastHit_cons, ih (n + 1), if_neg hne]

/-- The target maps built by the optimized `Factor` branch and the
generic branch of `MatchIndex.__init__` answer every lookup
identically, for a valid target factor. -/
theorem match_mapping_agree (t : Factor) (dm : DupMethod) (ht : t.valid)
    (s : String) :
    dictLookup (factorMapping t dm) s
      = dictLookup (genericMapping t.toStrings dm) s := by
  have hboth :
      (∀ c ∈ t.codes, c < (t.levels.length : Int)) ∧ t.levels.Nodup := ht
  obtain ⟨hv, hnd⟩ := hboth
  have hL : dictLookup (factorMapping t dm) s =
      match levelIdx 0 t.levels s with
      | some j =>
        (match ((t.codes.enumFrom 0).foldl (targetIndexStep dm)
            (List.replicate t.levels.length none)).getD j none with
         | some c => some c
         | none => dictLookup ([] : List (String × Nat)) s)
      | none => dictLookup ([] : List (String × Nat)) s :=
    levels_fold_char
      ((t.codes.enumFrom 0).foldl (targetIndexStep dm)
        (List.replicate t.levels.length none)) s t.levels 0 [] hnd
  cases hft : dm.firstTie with
  | true =>
    have hG : dictLookup (genericMapping t.toStrings dm) s
        = firstHit 0 t.toStrings s :=
      genericMapping_fold_first dm hft s t.toStrings 0 []
    cases hli : levelIdx 0 t.levels s with
    | none =>
      have hsmem : ¬ s ∈ t.levels := (levelIdx_none_iff s t.levels 0).mp hli
      rw [hL, hli, hG]
      exact (firstHit_none_of_not_mem t.levels s hsmem t.codes 0).symm
    | some j =>
      obtain ⟨k, hk0, hklt, hkget⟩ := levelIdx_some_spec s t.levels 0 j hli
      have hj : j = k := by omega
      subst hj
      have hT := targetIndex_fold_first dm hft j t.codes 0
        (List.replicate t.levels.length none)
        (by rw [List.length_replicate]; omega)
      rw [replicate_getD_none] at hT
      rw [hL, hli]
      show (match ((t.codes.enumFrom 0).foldl (targetIndexStep dm)
          (List.replicate t.levels.length none)).getD j none with
        | some c => some c
        | none => (none : Option Nat))
        = dictLookup (genericMapping t.toStrings dm) s
      rw [optionMatchId, hT, hG]
      exact (hit_bridge_first t.levels s j hnd hkget t.codes hv 0).symm
  | false =>
    have hG : dictLookup (genericMapping t.toStrings dm) s
        = match lastHit 0 t.toStrings s with
          | some j => some j
          | none => dictLookup ([] : List (String × Nat)) s :=
      genericMapping_fold_last dm hft s t.toStrings 0 []
    cases hli : levelIdx 0 t.levels s with
    | none =>
      have hsmem : ¬ s ∈ t.levels := (levelIdx_none_iff s t.levels 0).mp hli
      rw [hL, hli, hG,
        show t.toStrings = t.codes.map (toStr t.levels) from rfl,
        lastHit_none_of_not_mem t.levels s hsmem t.codes 0]
    | some j =>
      obtain ⟨k, hk0, hklt, hkget⟩ := levelIdx_some_spec s t.levels 0 j hli
      have hj : j = k := by omega
      subst hj
      have hT := targetIndex_fold_last dm hft j t.codes 0
        (List.replicate t.levels.length none)
        (by rw [List.length_replicate]; omega)
      rw [replicate_getD_none] at hT
      rw [hL, hli]
      show (match ((t.codes.enumFrom 0).foldl (targetIndexStep dm)
          (List.replicate t.levels.length none)).getD j none with
        | some c => some c
        | none => (none : Option Nat))
        = dictLookup (genericMapping t.toStrings dm) s
      rw [optionMatchId, hT, hG,
        show t.toStrings = t.codes.map (toStr t.levels) from rfl,
        hit_bridge_last t.levels s j hnd hkget t.codes hv 0]
      cases lastCodeHit 0 t.codes j <;> rfl

theorem xIndexOf_getD (m : List (String × Nat)) :
    ∀ (ls : List String) (k : Nat),
      (xIndexOf m ls).getD k (-1) =
        match ls.get? k with
        | some lev =>
          (match dictLookup m lev with
           | some i => (i : Int)
           | none => -1)
        | none => -1 := by
  intro ls
  induction ls with
  | nil => intro k; cases k <;> rfl
  | cons v rest ih =>
    intro k
    cases k with
    | zero => rfl
    | succ kk => exact ih kk

theorem matchFactorFailAux_cons (xi : List Int) (levels : List String)
    (code : Int) (rest : List Int) :
    matchFactorFailAux xi levels (code :: rest) =
      (if (if 0 ≤ code then xi.getD code.toNat (-1) else -1) < 0 then
        (if 0 ≤ code then
          Except.error (.valueError
            ("cannot find '" ++ levels.getD code.toNat "" ++ "' in 'targets'"))
        else Except.error .typeError)
      else (matchFactorFailAux xi levels rest).map
        (fun l => (if 0 ≤ code then xi.getD code.toNat (-1) else -1) :: l))
    := rfl

theorem matchListFail_cons_some (m : List (String × Nat)) (s : String)
    (rest : List (Option String)) :
    matchListFail m (some s :: rest) =
      (match dictLookup m s with
       | some i => (matchListFail m rest).map (fun l => (i : Int) :: l)
       | none =>
         Except.error (.valueError ("cannot find '" ++ s ++ "' in 'targets'")))
    := rfl

theorem matchListFail_cons_none (m : List (String × Nat))
    (rest : List (Option String)) :
    matchListFail m (none :: rest) =
      Except.error (.valueError
        ("cannot find '" ++ pyStr none ++ "' in 'targets'")) := rfl

theorem nofail_paths_eq (mF mG : List (String × Nat))
    (hm : ∀ s, dictLookup mF s = dictLookup mG s) (levels : List String)
    (codes : List Int) (hv : ∀ c ∈ codes, c < (levels.length : Int)) :
    matchFactorNoFailAux (xIndexOf mF levels) codes
      = matchListNoFail mG (codes.map (toStr levels)) := by
  unfold matchFactorNoFailAux matchListNoFail
  rw [List.map_map]
  apply List.map_congr_left
  intro c hc
  show (if 0 ≤ c then (xIndexOf mF levels).getD c.toNat (-1) else -1)
    = match toStr levels c with
      | some s =>
        (match dictLookup mG s with
         | some i => (i : Int)
         | none => -1)
      | none => -1
  by_cases h0 : 0 ≤ c
  · have hlen : c.toNat < levels.length := by
      have := hv c hc
      omega
    obtain ⟨lev, hlev⟩ : ∃ lev, levels.get? c.toNat = some lev :=
      ⟨_, List.get?_eq_get hlen⟩
    have htos : toStr levels c = some lev := by
      unfold toStr
      rw [if_pos h0, hlev]
    rw [if_pos h0, xIndexOf_getD mF levels c.toNat, hlev, htos]
    show (match dictLookup mF lev with
      | some i => (i : Int)
      | none => -1)
      = (match dictLookup mG lev with
        | some i => (i : Int)
        | none => -1)
    rw [hm lev]
  · have htos : toStr levels c = none := by
      unfold toStr
      rw [if_neg h0]
    rw [if_neg h0, htos]

theorem outcomesAgree_map_cons (a b : Except PyErr (List Int)) (i : Int)
    (h : outcomesAgree a b) :
    outcomesAgree (a.map (fun l => i :: l)) (b.map (fun l => i :: l)) := by
  cases a with
  | error e =>
    cases b with
    | error e2 => exact trivial
    | ok lb => exact h.elim
  | ok la =>
    cases b with
    | error e2 => exact h.elim
    | ok lb =>
      have hab : la = lb := h
      show (i :: la) = (i :: lb)
      rw [hab]

theorem fail_paths_agree (mF mG : List (String × Nat))
    (hm : ∀ s, dictLookup mF s = dictLookup mG s) (levels : List String) :
    ∀ (codes : List Int), (∀ c ∈ codes, c < (levels.length : Int)) →
      outcomesAgree (matchFactorFailAux (xIndexOf mF levels) levels codes)
        (matchListFail mG (codes.map (toStr levels))) := by
  intro codes
  induction codes with
  | nil => intro _; exact rfl
  | cons c rest ih =>
    intro hv
    have hrest := ih (fun d hd => hv d (List.mem_cons_of_mem _ hd))
    rw [List.map_cons]
    by_cases h0 : 0 ≤ c
    · have hlen : c.toNat < levels.length := by
        have := hv c (List.mem_cons_self _ _)
        omega
      obtain ⟨lev, hlev⟩ : ∃ lev, levels.get? c.toNat = some lev :=
        ⟨_, List.get?_eq_get hlen⟩
      have htos : toStr levels c = some lev := by
        unfold toStr
        rw [if_pos h0, hlev]
      have hcand : (if 0 ≤ c then (xIndexOf mF levels).getD c.toNat (-1)
          else -1)
          = match dictLookup mG lev with
            | some i => (i : Int)
            | none => -1 := by
        rw [if_pos h0, xIndexOf_getD mF levels c.toNat, hlev]
        show (match dictLookup mF lev with
          | some i => (i : Int)
          | none => -1)
          = (match dictLookup mG lev with
            | some i => (i : Int)
            | none => -1)
        rw [hm lev]
      cases hlk : dictLookup mG lev with
      | some i =>
        have hcand2 : (if 0 ≤ c then (xIndexOf mF levels).getD c.toNat (-1)
            else -1) = (i : Int) := by
          rw [hcand, hlk]
        rw [matchFactorFailAux_cons, hcand2, htos, matchListFail_cons_some,
          hlk, if_neg (show ¬ (i : Int) < 0 by omega)]
        exact outcomesAgree_map_cons _ _ (i : Int) hrest
      | none =>
        have hcand2 : (if 0 ≤ c then (xIndexOf mF levels).getD c.toNat (-1)
            else -1) = (-1 : Int) := by
          rw [hcand, hlk]
        rw [matchFactorFailAux_cons, hcand2, htos, matchListFail_cons_some,
          hlk, if_pos (show (-1 : Int) < 0 by omega), if_pos h0]
        exact trivial
    · have htos : toStr levels c = none := by
        unfold toStr
        rw [if_neg h0]
      rw [matchFactorFailAux_cons, if_neg h0,
        if_pos (show (-1 : Int) < 0 by omega), if_neg h0, htos,
        matchListFail_cons_none]
      exact trivial

/-- C9 (amended): for every pair of valid factors and every duplicate
method, the optimized `Factor`-vs-`Factor` path computes the same
output array as the generic string-comparison path and, under
`fail_missing`, the two paths raise on exactly the same inputs; only
the *kind* of exception can differ, on a missing entry (see the
counterexample theorem). -/
theorem factor_match_agrees_with_generic_path (t x : Factor)
    (dm : DupMethod) (fm : Bool) (ht : t.valid) (hx : x.valid) :
    outcomesAgree (matchFactorPath t dm fm x)
      (matchGenericPath t.toStrings dm fm x.toStrings) := by
  have hxv :
      (∀ c ∈ x.codes, c < (x.levels.length : Int)) ∧ x.levels.Nodup := hx
  cases fm with
  | false =>
    exact nofail_paths_eq (factorMapping t dm) (genericMapping t.toStrings dm)
      (match_mapping_agree t dm ht) x.levels x.codes hxv.1
  | true =>
    exact fail_paths_agree (factorMapping t dm) (genericMapping t.toStrings dm)
      (match_mapping_agree t dm ht) x.levels x.codes hxv.1

theorem factor_match_agrees_with_generic_path_witness :
    (Factor.valid wT ∧ Factor.valid wX)
    ∧ outcomesAgree (matchFactorPath wT .last true wX)
        (matchGenericPath wT.toStrings .last true wX.toStrings) :=
  ⟨⟨by decide, by decide⟩,
    factor_match_agrees_with_generic_path wT wX .last true (by decide)
      (by decide)⟩

end BiocUtils
